import Mathlib

/-!
Shallow embedding of the `prob` package (core.go, authoritative version with
tolerance-aware checks).  Go `float64` probabilities are embedded as exact
rationals `ℚ`; Go panics are embedded as `Except` errors, one constructor per
panic site.  The external finite-set collaborator (`github.com/nlandolfi/set`)
is embedded as duplicate-free lists, and Go maps as association lists.
-/

namespace Prob

/-- An `Outcome` is an element of a set (`set.Element`, an opaque comparable
value); embedded as `ℕ`. -/
abbrev Outcome := ℕ

/-- A `Probability` is an element of `[0, 1]`; Go `float64`, embedded as `ℚ`. -/
abbrev Probability := ℚ

/-- A `RandomVariable` is a real valued function of an outcome. -/
abbrev RandomVariable := Outcome → ℚ

/-- `Impossible` represents the probability that an outcome will never occur. -/
def Impossible : Probability := 0

/-- `Certain` represents the probability that an outcome will certainly occur. -/
def Certain : Probability := 1

/-- `epsilon` is the acceptable floating point error (`var epsilon = 0.00001`). -/
def epsilon : ℚ := 1 / 100000

/-- `Valid` determines whether a `Probability` is valid: it must lie on `[0, 1]`. -/
def Probability.Valid (p : Probability) : Prop := 0 ≤ p ∧ p ≤ 1

instance (p : Probability) : Decidable (Probability.Valid p) := by
  unfold Probability.Valid; infer_instance

/-- `equiv` determines whether two numbers are equivalent up to `epsilon`. -/
def equiv (f1 f2 : ℚ) : Prop := |f1 - f2| < epsilon

instance (f1 f2 : ℚ) : Decidable (equiv f1 f2) := by
  unfold equiv; infer_instance

/-- Modelled from the spec: the external set collaborator's `add` operation
(idempotent insertion; membership-based). -/
def setAdd (s : List Outcome) (o : Outcome) : List Outcome :=
  if o ∈ s then s else s ++ [o]

/-- Modelled from the spec: the external set collaborator's `cardinality`. -/
def setCardinality (s : List Outcome) : ℕ := s.length

/-- Modelled from the spec: the external set collaborator's `equivalence-test`
(mutual inclusion). -/
def setEquivalent (A B : List Outcome) : Prop :=
  (∀ o ∈ A, o ∈ B) ∧ (∀ o ∈ B, o ∈ A)

instance (A B : List Outcome) : Decidable (setEquivalent A B) := by
  unfold setEquivalent; infer_instance

/-- The support map `map[Outcome]Probability`, embedded as an association list. -/
abbrev SupportMap := List (Outcome × ℚ)

/-- Go map read `p, ok := m[o]`. -/
def mapLookup : SupportMap → Outcome → Option ℚ
  | [], _ => none
  | (k, v) :: rest, o => if k = o then some v else mapLookup rest o

/-- Go map write `m[o] = p` (overwrite if the key is present, insert otherwise). -/
def mapInsert : SupportMap → Outcome → ℚ → SupportMap
  | [], o, p => [(o, p)]
  | (k, v) :: rest, o, p =>
      if k = o then (o, p) :: rest else (k, v) :: mapInsert rest o p

/-- `mapLookup` with default `0`; proof-side helper for summing masses. -/
def lookupD (m : SupportMap) (o : Outcome) : ℚ := (mapLookup m o).getD 0

/-- One error constructor per panic site in the Go source. -/
inductive DistError where
  /-- `assert(!equiv(float64(Support(d)), 1.0), "distribution already fully supported")` -/
  | alreadyFullySupported
  /-- `assert((float64(Support(d)+p) < 1.0+epsilon), "adding outcome would over-support")` -/
  | wouldOverSupport
  /-- `assert(p.Valid(), "invalid probability")` -/
  | invalidProbability
  /-- `assert(!equiv(float64(p), 0), "probability zero")` -/
  | probabilityZero
  /-- `panic("outcome not in domain")` -/
  | outcomeNotInDomain
  /-- `assert(FullySupported(...), "... not fully supported")` in `Compose`/`Simulate` -/
  | notFullySupported
  /-- `assert(set.Equivalent(p.Domain(), q.Domain()), ...)` in `Compose` -/
  | domainMismatch
  deriving DecidableEq, Repr

/-- The spec's *OverSupported* error category. -/
def isOverSupportedErr : DistError → Prop
  | .alreadyFullySupported => True
  | .wouldOverSupport => True
  | _ => False

instance (e : DistError) : Decidable (isOverSupportedErr e) := by
  unfold isOverSupportedErr; cases e <;> infer_instance

/-- The spec's *InvalidProbability* error category. -/
def isInvalidProbabilityErr : DistError → Prop
  | .invalidProbability => True
  | .probabilityZero => True
  | _ => False

instance (e : DistError) : Decidable (isInvalidProbabilityErr e) := by
  unfold isInvalidProbabilityErr; cases e <;> infer_instance

/-- The `distribution` struct: a domain, an outcomes set and a support map. -/
structure distribution where
  domain : List Outcome
  outcomes : List Outcome
  support : SupportMap
  deriving DecidableEq, Repr

/-- `NewDiscreteDistribution` constructs an empty discrete distribution over
the set `d`, provided as the domain of the distribution. -/
def NewDiscreteDistribution (d : List Outcome) : distribution :=
  { domain := d, outcomes := [], support := [] }

/-- `(d *distribution) ProbabilityOf`: the recorded probability if present;
`Impossible` for a domain member with no recorded probability; panic
(`outcome not in domain`) otherwise. -/
def ProbabilityOf (d : distribution) (o : Outcome) : Except DistError ℚ :=
  match mapLookup d.support o with
  | some p => .ok p
  | none => if o ∈ d.domain then .ok Impossible else .error .outcomeNotInDomain

/-- The summation loop of `Support`: `for o := range d.Outcomes().Iter() { p += d.ProbabilityOf(o) }`. -/
def sumProbs (d : distribution) : List Outcome → ℚ → Except DistError ℚ
  | [], acc => .ok acc
  | o :: rest, acc =>
      match ProbabilityOf d o with
      | .ok p => sumProbs d rest (acc + p)
      | .error e => .error e

/-- `Support` calculates the total probability mass assigned so far. -/
def Support (d : distribution) : Except DistError ℚ :=
  sumProbs d d.outcomes 0

/-- `FullySupported`: true iff the sum of the probabilities of all outcomes is
`Certain`, up to `epsilon`. -/
def FullySupported (d : distribution) : Except DistError Bool :=
  match Support d with
  | .ok s => .ok (decide (equiv s Certain))
  | .error e => .error e

/-- `Cardinality`: the number of outcomes with assigned probability. -/
def Cardinality (d : distribution) : ℕ := setCardinality d.outcomes

/-- `(d *distribution) AddOutcome`, with its four asserts in source order. -/
def AddOutcome (d : distribution) (o : Outcome) (p : ℚ) : Except DistError distribution :=
  match Support d with
  | .error e => .error e
  | .ok s =>
      if equiv s (1 : ℚ) then .error .alreadyFullySupported
      else if ¬ (s + p < 1 + epsilon) then .error .wouldOverSupport
      else if ¬ Probability.Valid p then .error .invalidProbability
      else if equiv p 0 then .error .probabilityZero
      else .ok { d with outcomes := setAdd d.outcomes o,
                        support := mapInsert d.support o p }

/-- The construction loop of `NewUniformDiscrete`. -/
def addUniform (c : ℚ) : List Outcome → distribution → Except DistError distribution
  | [], d => .ok d
  | o :: rest, d =>
      match AddOutcome d o c with
      | .ok d' => addUniform c rest d'
      | .error e => .error e

/-- `NewUniformDiscrete` constructs a discrete distribution over the set
`domain`; each element is assigned a probability `1/Cardinality(domain)`. -/
def NewUniformDiscrete (domain : List Outcome) : Except DistError distribution :=
  addUniform (Certain / (setCardinality domain : ℚ)) domain (NewDiscreteDistribution domain)

/-- The expectation loop: `exp += X(o) * float64(d.ProbabilityOf(o))`. -/
def expSum (d : distribution) (X : RandomVariable) : List Outcome → ℚ → Except DistError ℚ
  | [], acc => .ok acc
  | o :: rest, acc =>
      match ProbabilityOf d o with
      | .ok p => expSum d X rest (acc + X o * p)
      | .error e => .error e

/-- `Expectation` computes the expected value of a random variable `X` over `d`. -/
def Expectation (d : distribution) (X : RandomVariable) : Except DistError ℚ :=
  expSum d X d.outcomes 0

/-- `Moment` calculates the nth moment: the expectation of `X^n`
(`math.Pow(X(o), float64(n))`). -/
def Moment (d : distribution) (X : RandomVariable) (n : ℤ) : Except DistError ℚ :=
  Expectation d (fun o => X o ^ n)

/-- `Covariance`: `E(XY) - E(X)E(Y)`. -/
def Covariance (d : distribution) (X Y : RandomVariable) : Except DistError ℚ :=
  match Expectation d (fun o => X o * Y o) with
  | .error e => .error e
  | .ok exy =>
      match Expectation d X with
      | .error e => .error e
      | .ok ex =>
          match Expectation d Y with
          | .error e => .error e
          | .ok ey => .ok (exy - ex * ey)

/-- `IndependentVariables`: `Covariance(d, X, Y) == 0` (exact comparison in the
source). -/
def IndependentVariables (d : distribution) (X Y : RandomVariable) : Except DistError Bool :=
  match Covariance d X Y with
  | .ok c => .ok (decide (c = 0))
  | .error e => .error e

/-- One `cp` computation plus conditional `AddOutcome` step of `Compose`'s loop. -/
def composeLoop (p q : distribution) (alpha : ℚ) :
    List Outcome → distribution → Except DistError distribution
  | [], n => .ok n
  | o :: rest, n =>
      match ProbabilityOf p o, ProbabilityOf q o with
      | .ok pp, .ok qq =>
          let cp := alpha * pp + (1 - alpha) * qq
          if cp = Impossible then composeLoop p q alpha rest n
          else
            match AddOutcome n o cp with
            | .ok n' => composeLoop p q alpha rest n'
            | .error e => .error e
      | .error e, _ => .error e
      | .ok _, .error e => .error e

/-- `Compose` builds the convex mixture of two fully supported distributions
over equivalent domains. -/
def Compose (p q : distribution) (alpha : ℚ) : Except DistError distribution :=
  match FullySupported p with
  | .error e => .error e
  | .ok fp =>
      if ¬ fp then .error .notFullySupported
      else
        match FullySupported q with
        | .error e => .error e
        | .ok fq =>
            if ¬ fq then .error .notFullySupported
            else if ¬ setEquivalent p.domain q.domain then .error .domainMismatch
            else composeLoop p q alpha p.domain (NewDiscreteDistribution p.domain)

/-- The sampling walk of `Simulate`: accumulate mass, return the first outcome
whose running mass strictly exceeds `f`, falling back to the last outcome
visited (`none` models the nil zero value of `var last Outcome`). -/
def simLoop (d : distribution) (f : ℚ) :
    List Outcome → ℚ → Option Outcome → Except DistError (Option Outcome)
  | [], _, last => .ok last
  | o :: rest, p, _ =>
      match ProbabilityOf d o with
      | .ok po => if f < p + po then .ok (some o) else simLoop d f rest (p + po) (some o)
      | .error e => .error e

/-- `Simulate` draws one outcome of a fully supported discrete distribution,
given the uniform random threshold `f = rand.Float64()`. -/
def Simulate (d : distribution) (f : ℚ) : Except DistError (Option Outcome) :=
  match FullySupported d with
  | .error e => .error e
  | .ok fs => if ¬ fs then .error .notFullySupported else simLoop d f d.outcomes 0 none

/-- A sequence of `AddOutcome` calls, all of which must succeed. -/
def addAll : distribution → List (Outcome × ℚ) → Except DistError distribution
  | d, [] => .ok d
  | d, (o, p) :: rest =>
      match AddOutcome d o p with
      | .ok d' => addAll d' rest
      | .error e => .error e

/-- Well-formedness of the internal state: the outcomes set is duplicate-free,
it consists exactly of the support map's keys, and all recorded probabilities
are nonnegative.  Every state reachable through the constructors satisfies it. -/
def WF (d : distribution) : Prop :=
  d.outcomes.Nodup
    ∧ (∀ o ∈ d.outcomes, (mapLookup d.support o).isSome)
    ∧ (∀ kv ∈ d.support, kv.1 ∈ d.outcomes ∧ 0 ≤ kv.2)

instance (d : distribution) : Decidable (WF d) := by
  unfold WF; infer_instance

end Prob

namespace Prob

/-! ### Association-list and set lemmas -/

theorem mapLookup_insert_self (m : SupportMap) (o : Outcome) (p : ℚ) :
    mapLookup (mapInsert m o p) o = some p := by
  induction m with
  | nil => simp [mapInsert, mapLookup]
  | cons kv rest ih =>
      obtain ⟨k, v⟩ := kv
      by_cases h : k = o <;> simp [mapInsert, mapLookup, h, ih]

theorem mapLookup_insert_ne (m : SupportMap) (o o' : Outcome) (p : ℚ) (h : o' ≠ o) :
    mapLookup (mapInsert m o p) o' = mapLookup m o' := by
  induction m with
  | nil => simp [mapInsert, mapLookup, Ne.symm h]
  | cons kv rest ih =>
      obtain ⟨k, v⟩ := kv
      by_cases hk : k = o
      · subst hk
        simp [mapInsert, mapLookup, Ne.symm h]
      · simp only [mapInsert, if_neg hk, mapLookup]
        by_cases hk' : k = o' <;> simp [hk', ih]

theorem mem_of_mapLookup_some (m : SupportMap) (o : Outcome) (v : ℚ)
    (h : mapLookup m o = some v) : (o, v) ∈ m := by
  induction m with
  | nil => simp [mapLookup] at h
  | cons kv rest ih =>
      obtain ⟨k, w⟩ := kv
      by_cases hk : k = o
      · subst hk
        simp [mapLookup] at h
        simp [h]
      · simp [mapLookup, hk] at h
        exact List.mem_cons_of_mem _ (ih h)

theorem mem_mapInsert (m : SupportMap) (o : Outcome) (p : ℚ) (kv : Outcome × ℚ)
    (h : kv ∈ mapInsert m o p) : kv = (o, p) ∨ kv ∈ m := by
  induction m with
  | nil => simpa [mapInsert] using h
  | cons hd rest ih =>
      obtain ⟨k, v⟩ := hd
      by_cases hk : k = o
      · subst hk
        simp [mapInsert] at h
        rcases h with h | h
        · exact Or.inl (by simp [h])
        · exact Or.inr (List.mem_cons_of_mem _ h)
      · simp [mapInsert, hk] at h
        rcases h with h | h
        · exact Or.inr (by simp [h])
        · rcases ih h with h' | h'
          · exact Or.inl h'
          · exact Or.inr (List.mem_cons_of_mem _ h')

theorem mapInsert_of_lookup_none (m : SupportMap) (o : Outcome) (p : ℚ)
    (h : mapLookup m o = none) : mapInsert m o p = m ++ [(o, p)] := by
  induction m with
  | nil => simp [mapInsert]
  | cons kv rest ih =>
      obtain ⟨k, v⟩ := kv
      by_cases hk : k = o
      · simp [mapLookup, hk] at h
      · simp [mapLookup, hk] at h
        simp [mapInsert, hk, ih h]

theorem mapLookup_map_pair_of_mem (l : List Outcome) (g : Outcome → ℚ) (o : Outcome)
    (h : o ∈ l) : mapLookup (l.map (fun x => (x, g x))) o = some (g o) := by
  induction l with
  | nil => simp at h
  | cons a rest ih =>
      by_cases ha : a = o
      · subst ha; simp [mapLookup]
      · rcases List.mem_cons.mp h with h' | h'
        · exact absurd h'.symm ha
        · simp [mapLookup, ha, ih h']

theorem mapLookup_map_pair_of_not_mem (l : List Outcome) (g : Outcome → ℚ) (o : Outcome)
    (h : o ∉ l) : mapLookup (l.map (fun x => (x, g x))) o = none := by
  induction l with
  | nil => simp [mapLookup]
  | cons a rest ih =>
      simp only [List.mem_cons, not_or] at h
      simp [mapLookup, Ne.symm h.1, ih h.2]

theorem mem_setAdd (s : List Outcome) (o x : Outcome) :
    x ∈ setAdd s o ↔ x ∈ s ∨ x = o := by
  by_cases h : o ∈ s
  · simp only [setAdd, if_pos h]
    constructor
    · exact Or.inl
    · rintro (hx | rfl) <;> [exact hx; exact h]
  · simp [setAdd, if_neg h]

theorem setAdd_of_mem (s : List Outcome) (o : Outcome) (h : o ∈ s) : setAdd s o = s := by
  simp [setAdd, h]

theorem setAdd_of_not_mem (s : List Outcome) (o : Outcome) (h : o ∉ s) :
    setAdd s o = s ++ [o] := by
  simp [setAdd, h]

theorem nodup_setAdd (s : List Outcome) (o : Outcome) (h : s.Nodup) :
    (setAdd s o).Nodup := by
  by_cases hm : o ∈ s
  · simpa [setAdd_of_mem s o hm]
  · rw [setAdd_of_not_mem s o hm]
    simp [List.nodup_append, h, hm]

/-! ### Summation lemmas -/

theorem ProbabilityOf_eq_lookupD (d : distribution) (o : Outcome)
    (h : (mapLookup d.support o).isSome ∨ o ∈ d.domain) :
    ProbabilityOf d o = .ok (lookupD d.support o) := by
  unfold ProbabilityOf lookupD
  cases hl : mapLookup d.support o with
  | some v => simp
  | none =>
      rcases h with h | h
      · simp [hl] at h
      · simp [h, Impossible]

theorem sumProbs_eq (d : distribution) (l : List Outcome) (acc : ℚ)
    (h : ∀ o ∈ l, (mapLookup d.support o).isSome ∨ o ∈ d.domain) :
    sumProbs d l acc = .ok (acc + (l.map (lookupD d.support)).sum) := by
  induction l generalizing acc with
  | nil => simp [sumProbs]
  | cons o rest ih =>
      have ho := ProbabilityOf_eq_lookupD d o (h o (List.mem_cons_self o rest))
      simp only [sumProbs, ho]
      rw [ih (acc + lookupD d.support o) (fun x hx => h x (List.mem_cons_of_mem _ hx))]
      simp [add_assoc]

theorem sumProbs_ok_forall (d : distribution) (l : List Outcome) (acc s : ℚ)
    (h : sumProbs d l acc = .ok s) :
    ∀ o ∈ l, ∃ v, ProbabilityOf d o = .ok v := by
  induction l generalizing acc with
  | nil => simp
  | cons o rest ih =>
      intro x hx
      simp only [sumProbs] at h
      cases ho : ProbabilityOf d o with
      | error e => rw [ho] at h; simp at h
      | ok v =>
          rw [ho] at h
          rcases List.mem_cons.mp hx with rfl | hx'
          · exact ⟨v, ho⟩
          · exact ih (acc + v) h x hx'

theorem sum_map_congr_ne (l : List Outcome) (f g : Outcome → ℚ) (o : Outcome)
    (ho : o ∉ l) (hoff : ∀ x, x ≠ o → g x = f x) :
    (l.map g).sum = (l.map f).sum := by
  induction l with
  | nil => simp
  | cons a rest ih =>
      simp only [List.mem_cons, not_or] at ho
      simp [hoff a (Ne.symm ho.1), ih ho.2]

theorem sum_map_overwrite (l : List Outcome) (f g : Outcome → ℚ) (o : Outcome)
    (hmem : o ∈ l) (hnd : l.Nodup) (hoff : ∀ x, x ≠ o → g x = f x) :
    (l.map g).sum = (l.map f).sum - f o + g o := by
  induction l with
  | nil => simp at hmem
  | cons a rest ih =>
      rcases List.nodup_cons.mp hnd with ⟨hna, hnr⟩
      by_cases ha : a = o
      · subst ha
        have : (rest.map g).sum = (rest.map f).sum := sum_map_congr_ne rest f g a hna hoff
        simp [this]; ring
      · rcases List.mem_cons.mp hmem with h' | h'
        · exact absurd h'.symm ha
        · simp [hoff a ha, ih h' hnr]; ring

/-! ### Well-formedness preservation -/

theorem WF_new (dom : List Outcome) : WF (NewDiscreteDistribution dom) := by
  refine ⟨List.nodup_nil, ?_, ?_⟩ <;> simp [NewDiscreteDistribution]

theorem WF_lookup_nonneg (d : distribution) (h : WF d) (o : Outcome) (v : ℚ)
    (hl : mapLookup d.support o = some v) : 0 ≤ v :=
  (h.2.2 (o, v) (mem_of_mapLookup_some d.support o v hl)).2

theorem WF_lookupD_nonneg (d : distribution) (h : WF d) (o : Outcome) :
    0 ≤ lookupD d.support o := by
  unfold lookupD
  cases hl : mapLookup d.support o with
  | none => simp
  | some v => simpa using WF_lookup_nonneg d h o v hl

theorem AddOutcome_ok (d : distribution) (o : Outcome) (p : ℚ) (d' : distribution)
    (h : AddOutcome d o p = .ok d') :
    ∃ s, Support d = .ok s ∧ ¬ equiv s 1 ∧ s + p < 1 + epsilon ∧
      Probability.Valid p ∧ ¬ equiv p 0 ∧
      d' = { d with outcomes := setAdd d.outcomes o, support := mapInsert d.support o p } := by
  unfold AddOutcome at h
  cases hS : Support d with
  | error e => rw [hS] at h; simp at h
  | ok s =>
      rw [hS] at h
      dsimp only at h
      by_cases h1 : equiv s 1
      · rw [if_pos h1] at h
        exact Except.noConfusion h
      · rw [if_neg h1] at h
        by_cases h2 : s + p < 1 + epsilon
        · rw [if_neg (not_not_intro h2)] at h
          by_cases h3 : Probability.Valid p
          · rw [if_neg (not_not_intro h3)] at h
            by_cases h4 : equiv p 0
            · rw [if_pos h4] at h
              exact Except.noConfusion h
            · rw [if_neg h4] at h
              refine ⟨s, rfl, h1, h2, h3, h4, ?_⟩
              injection h with h'
              exact h'.symm
          · rw [if_pos h3] at h
            exact Except.noConfusion h
        · rw [if_pos h2] at h
          exact Except.noConfusion h

theorem AddOutcome_eq_ok (d : distribution) (o : Outcome) (p s : ℚ)
    (hS : Support d = .ok s) (h1 : ¬ equiv s 1) (h2 : s + p < 1 + epsilon)
    (h3 : Probability.Valid p) (h4 : ¬ equiv p 0) :
    AddOutcome d o p =
      .ok { d with outcomes := setAdd d.outcomes o, support := mapInsert d.support o p } := by
  unfold AddOutcome
  rw [hS]
  simp [h1, h2, h3, h4]

theorem WF_addOutcome (d : distribution) (o : Outcome) (p : ℚ) (d' : distribution)
    (hwf : WF d) (h : AddOutcome d o p = .ok d') : WF d' := by
  obtain ⟨s, _, _, _, hval, _, hd'⟩ := AddOutcome_ok d o p d' h
  subst hd'
  refine ⟨nodup_setAdd _ _ hwf.1, ?_, ?_⟩
  · intro x hx
    by_cases hxo : x = o
    · subst hxo; simp [mapLookup_insert_self]
    · rw [mapLookup_insert_ne _ _ _ _ hxo]
      exact hwf.2.1 x (((mem_setAdd _ _ _).mp hx).resolve_right hxo)
  · intro kv hkv
    rcases mem_mapInsert _ _ _ _ hkv with rfl | hkv'
    · exact ⟨(mem_setAdd _ _ _).mpr (Or.inr rfl), hval.1⟩
    · exact ⟨(mem_setAdd _ _ _).mpr (Or.inl (hwf.2.2 kv hkv').1), (hwf.2.2 kv hkv').2⟩

theorem Support_of_WF (d : distribution) (h : WF d) :
    Support d = .ok ((d.outcomes.map (lookupD d.support)).sum) := by
  unfold Support
  rw [sumProbs_eq d d.outcomes 0 (fun o ho => Or.inl (h.2.1 o ho))]
  simp

end Prob

namespace Prob

/-! ### AddOutcome error branches -/

theorem AddOutcome_err_full (d : distribution) (o : Outcome) (p s : ℚ)
    (hS : Support d = .ok s) (h1 : equiv s 1) :
    AddOutcome d o p = .error .alreadyFullySupported := by
  unfold AddOutcome
  rw [hS]
  dsimp only
  rw [if_pos h1]

theorem AddOutcome_err_over (d : distribution) (o : Outcome) (p s : ℚ)
    (hS : Support d = .ok s) (h1 : ¬ equiv s 1) (h2 : ¬ (s + p < 1 + epsilon)) :
    AddOutcome d o p = .error .wouldOverSupport := by
  unfold AddOutcome
  rw [hS]
  dsimp only
  rw [if_neg h1, if_pos h2]

theorem AddOutcome_err_invalid (d : distribution) (o : Outcome) (p s : ℚ)
    (hS : Support d = .ok s) (h1 : ¬ equiv s 1) (h2 : s + p < 1 + epsilon)
    (h3 : ¬ Probability.Valid p) :
    AddOutcome d o p = .error .invalidProbability := by
  unfold AddOutcome
  rw [hS]
  dsimp only
  rw [if_neg h1, if_neg (not_not_intro h2), if_pos h3]

theorem AddOutcome_err_zero (d : distribution) (o : Outcome) (p s : ℚ)
    (hS : Support d = .ok s) (h1 : ¬ equiv s 1) (h2 : s + p < 1 + epsilon)
    (h3 : Probability.Valid p) (h4 : equiv p 0) :
    AddOutcome d o p = .error .probabilityZero := by
  unfold AddOutcome
  rw [hS]
  dsimp only
  rw [if_neg h1, if_neg (not_not_intro h2), if_neg (not_not_intro h3), if_pos h4]

/-! ### Claim C2 -/

/-- C2: `AddOutcome(outcome, probability)` fails with an *OverSupported* error
when the current support mass is already at `Certain` within tolerance, and
when the current support plus the new probability reaches `Certain + epsilon`;
when neither over-support condition applies, it fails with an
*InvalidProbability* error when the probability is outside `[0,1]` or is zero
within tolerance; and on success it adds the outcome to the outcomes set and
records its probability in the support map. -/
theorem C2_addOutcome_spec (d : distribution) (o : Outcome) (p s : ℚ)
    (hS : Support d = .ok s) :
    (equiv s Certain → ∃ e, AddOutcome d o p = .error e ∧ isOverSupportedErr e)
  ∧ (Certain + epsilon ≤ s + p → ∃ e, AddOutcome d o p = .error e ∧ isOverSupportedErr e)
  ∧ (¬ equiv s Certain → s + p < Certain + epsilon →
      (¬ Probability.Valid p ∨ equiv p Impossible) →
      ∃ e, AddOutcome d o p = .error e ∧ isInvalidProbabilityErr e)
  ∧ (¬ equiv s Certain → s + p < Certain + epsilon → Probability.Valid p →
      ¬ equiv p Impossible →
      ∃ d', AddOutcome d o p = .ok d'
        ∧ d'.outcomes = setAdd d.outcomes o
        ∧ mapLookup d'.support o = some p) := by
  refine ⟨?_, ?_, ?_, ?_⟩
  · intro h1
    exact ⟨.alreadyFullySupported, AddOutcome_err_full d o p s hS h1, trivial⟩
  · intro h2
    by_cases h1 : equiv s 1
    · exact ⟨.alreadyFullySupported, AddOutcome_err_full d o p s hS h1, trivial⟩
    · exact ⟨.wouldOverSupport, AddOutcome_err_over d o p s hS h1 (not_lt.mpr h2), trivial⟩
  · intro h1 h2 hbad
    by_cases h3 : Probability.Valid p
    · rcases hbad with hb | hb
      · exact absurd h3 hb
      · exact ⟨.probabilityZero, AddOutcome_err_zero d o p s hS h1 h2 h3 hb, trivial⟩
    · exact ⟨.invalidProbability, AddOutcome_err_invalid d o p s hS h1 h2 h3, trivial⟩
  · intro h1 h2 h3 h4
    exact ⟨_, AddOutcome_eq_ok d o p s hS h1 h2 h3 h4,
      rfl, mapLookup_insert_self _ _ _⟩

theorem C2_addOutcome_spec_witness :
    ∃ d', AddOutcome (NewDiscreteDistribution [0, 1]) 0 (1/2) = .ok d'
      ∧ d'.outcomes = setAdd (NewDiscreteDistribution [0, 1]).outcomes 0
      ∧ mapLookup d'.support 0 = some (1/2) :=
  (C2_addOutcome_spec (NewDiscreteDistribution [0, 1]) 0 (1/2) 0
      (by norm_num [Support, sumProbs, NewDiscreteDistribution])).2.2.2
    (by norm_num [equiv, epsilon, abs_lt, Certain])
    (by norm_num [epsilon, Certain])
    (by norm_num [Probability.Valid])
    (by norm_num [equiv, epsilon, abs_lt, Impossible])

/-! ### Claim C3 -/

/-- C3 counterexample: `AddOutcome` performs no domain-membership check, so an
outcome that is *not* a member of the domain can carry a recorded probability;
`ProbabilityOf` then returns that probability instead of failing with
*OutcomeNotInDomain*, contradicting the claim's third arm. -/
theorem C3_not_in_domain_cex :
    AddOutcome (NewDiscreteDistribution [0]) 5 (1/2)
      = .ok { domain := [0], outcomes := [5], support := [(5, 1/2)] }
  ∧ (5 : Outcome) ∉ ([0] : List Outcome)
  ∧ ProbabilityOf { domain := [0], outcomes := [5], support := [(5, 1/2)] } 5 = .ok (1/2) := by
  refine ⟨?_, by simp, ?_⟩
  · norm_num [AddOutcome, Support, sumProbs, ProbabilityOf, mapLookup, NewDiscreteDistribution,
      equiv, epsilon, abs_lt, Probability.Valid, setAdd, mapInsert]
  · norm_num [ProbabilityOf, mapLookup]

/-- C3 (amended): `ProbabilityOf(outcome)` returns the recorded probability for
every outcome present in the support map; returns `Impossible` for every
outcome absent from the support map that is a member of the domain; and fails
with *OutcomeNotInDomain* for every outcome that is neither in the support map
nor a member of the domain. -/
theorem C3_probabilityOf_cases (d : distribution) (o : Outcome) :
    (∀ p, mapLookup d.support o = some p → ProbabilityOf d o = .ok p)
  ∧ (mapLookup d.support o = none → o ∈ d.domain → ProbabilityOf d o = .ok Impossible)
  ∧ (mapLookup d.support o = none → o ∉ d.domain →
      ProbabilityOf d o = .error .outcomeNotInDomain) := by
  refine ⟨?_, ?_, ?_⟩
  · intro p hp
    simp [ProbabilityOf, hp]
  · intro hn hd
    simp [ProbabilityOf, hn, hd]
  · intro hn hd
    simp [ProbabilityOf, hn, hd]

theorem C3_probabilityOf_cases_witness :
    ProbabilityOf { domain := [0], outcomes := [0], support := [(0, 1/2)] } 7
      = .error .outcomeNotInDomain :=
  (C3_probabilityOf_cases { domain := [0], outcomes := [0], support := [(0, 1/2)] } 7).2.2
    (by norm_num [mapLookup]) (by norm_num)

/-! ### Claim C8 -/

/-- Example distribution: the uniform distribution on the two-point domain. -/
def dUnifTwo : distribution :=
  { domain := [0, 1], outcomes := [0, 1], support := [(0, 1/2), (1, 1/2)] }

/-- Example random variable with a small nonzero value on one outcome. -/
def XSmall : RandomVariable := fun o => if o = 0 then 1/1000 else 0

/-- C8 counterexample: the covariance of `XSmall` with itself is `1/4000000`,
which is zero within tolerance, yet `IndependentVariables` returns `false`
because the source compares against zero exactly. -/
theorem C8_exact_zero_cex :
    Covariance dUnifTwo XSmall XSmall = .ok (1/4000000)
  ∧ equiv (1/4000000) 0
  ∧ IndependentVariables dUnifTwo XSmall XSmall = .ok false := by
  refine ⟨?_, ?_, ?_⟩ <;>
    norm_num [dUnifTwo, XSmall, IndependentVariables, Covariance, Expectation, expSum,
      ProbabilityOf, mapLookup, equiv, epsilon, abs_lt]

/-- C8 (amended): `IndependentVariables(d, X, Y)` returns `true` if and only if
`Covariance(d, X, Y)` is exactly zero (the comparison is not tolerance-aware). -/
theorem C8_exact_iff (d : distribution) (X Y : RandomVariable) (c : ℚ)
    (h : Covariance d X Y = .ok c) :
    IndependentVariables d X Y = .ok true ↔ c = 0 := by
  unfold IndependentVariables
  rw [h]
  dsimp only
  simp

theorem C8_exact_iff_witness :
    (IndependentVariables dUnifTwo XSmall XSmall = .ok true ↔ (1/4000000 : ℚ) = 0) :=
  C8_exact_iff dUnifTwo XSmall XSmall (1/4000000)
    (by norm_num [dUnifTwo, XSmall, Covariance, Expectation, expSum, ProbabilityOf, mapLookup])

/-! ### Claim C9 -/

/-- C9: re-adding an outcome that already has an assigned probability is not
rejected: when the four checks pass, the second assignment overwrites the old
recorded probability, and the outcomes set (hence `Cardinality`) is unchanged. -/
theorem C9_overwrite (d : distribution) (o : Outcome) (p pOld s : ℚ)
    (hmem : o ∈ d.outcomes) (hold : mapLookup d.support o = some pOld)
    (hS : Support d = .ok s)
    (h1 : ¬ equiv s Certain) (h2 : s + p < Certain + epsilon)
    (h3 : Probability.Valid p) (h4 : ¬ equiv p Impossible) :
    ∃ d', AddOutcome d o p = .ok d'
      ∧ mapLookup d'.support o = some p
      ∧ d'.outcomes = d.outcomes
      ∧ Cardinality d' = Cardinality d := by
  refine ⟨_, AddOutcome_eq_ok d o p s hS h1 h2 h3 h4, ?_, ?_, ?_⟩
  · exact mapLookup_insert_self _ _ _
  · exact setAdd_of_mem _ _ hmem
  · simp [Cardinality, setCardinality, setAdd_of_mem _ _ hmem]

theorem C9_overwrite_witness :
    ∃ d', AddOutcome { domain := [0, 1], outcomes := [0], support := [(0, 1/2)] } 0 (1/3) = .ok d'
      ∧ mapLookup d'.support 0 = some (1/3)
      ∧ d'.outcomes = [0]
      ∧ Cardinality d' = Cardinality { domain := [0, 1], outcomes := [0], support := [(0, 1/2)] } :=
  C9_overwrite { domain := [0, 1], outcomes := [0], support := [(0, 1/2)] } 0 (1/3) (1/2) (1/2)
    (by norm_num) (by norm_num [mapLookup])
    (by norm_num [Support, sumProbs, ProbabilityOf, mapLookup])
    (by norm_num [equiv, epsilon, abs_lt, Certain])
    (by norm_num [epsilon, Certain])
    (by norm_num [Probability.Valid])
    (by norm_num [equiv, epsilon, abs_lt, Impossible])

/-! ### Claim C10 -/

/-- C10: the first moment coincides with the expectation: for every
distribution `d` and random variable `X`, `Moment(d, X, 1) = Expectation(d, X)`
exactly, because raising each value to the power `1` is the identity. -/
theorem C10_moment_one (d : distribution) (X : RandomVariable) :
    Moment d X 1 = Expectation d X := by
  unfold Moment
  congr 1
  funext o
  exact zpow_one (X o)

end Prob

namespace Prob

/-! ### Claim C1 -/

theorem lookupD_insert_self (m : SupportMap) (o : Outcome) (p : ℚ) :
    lookupD (mapInsert m o p) o = p := by
  simp [lookupD, mapLookup_insert_self]

theorem lookupD_insert_ne (m : SupportMap) (o o' : Outcome) (p : ℚ) (h : o' ≠ o) :
    lookupD (mapInsert m o p) o' = lookupD m o' := by
  simp [lookupD, mapLookup_insert_ne m o o' p h]

theorem support_addOutcome_le (d : distribution) (o : Outcome) (p : ℚ)
    (d' : distribution) (s : ℚ)
    (hwf : WF d) (h : AddOutcome d o p = .ok d') (hS : Support d = .ok s) :
    ∃ s', Support d' = .ok s' ∧ s' ≤ s + p := by
  obtain ⟨s0, hS0, _, _, hval, _, hd'⟩ := AddOutcome_ok d o p d' h
  have hwf' := WF_addOutcome d o p d' hwf h
  have hsum := Support_of_WF d hwf
  have hs_eq : s = (d.outcomes.map (lookupD d.support)).sum := by
    have := hS.symm.trans hsum
    injection this
  have hoff : ∀ x, x ≠ o →
      lookupD (mapInsert d.support o p) x = lookupD d.support x :=
    fun x hx => lookupD_insert_ne d.support o x p hx
  have hsum' := Support_of_WF d' hwf'
  subst hd'
  by_cases hmem : o ∈ d.outcomes
  · rw [setAdd_of_mem _ _ hmem] at hsum' ⊢
    refine ⟨_, hsum', ?_⟩
    dsimp only at hsum' ⊢
    rw [sum_map_overwrite d.outcomes (lookupD d.support)
      (lookupD (mapInsert d.support o p)) o hmem hwf.1 hoff,
      lookupD_insert_self]
    have h0 : 0 ≤ lookupD d.support o := WF_lookupD_nonneg d hwf o
    rw [← hs_eq]
    linarith
  · rw [setAdd_of_not_mem _ _ hmem] at hsum' ⊢
    refine ⟨_, hsum', ?_⟩
    dsimp only
    rw [List.map_append, List.sum_append,
      sum_map_congr_ne d.outcomes (lookupD d.support)
        (lookupD (mapInsert d.support o p)) o hmem hoff]
    simp [lookupD_insert_self, ← hs_eq]

theorem addAll_invariant (steps : List (Outcome × ℚ)) :
    ∀ d d', WF d → (∃ s, Support d = .ok s ∧ s < 1 + epsilon) →
      addAll d steps = .ok d' →
      WF d' ∧ ∃ s', Support d' = .ok s' ∧ s' < 1 + epsilon := by
  induction steps with
  | nil =>
      intro d d' hwf hinv h
      unfold addAll at h
      injection h with h
      subst h
      exact ⟨hwf, hinv⟩
  | cons op rest ih =>
      intro d d' hwf hinv h
      obtain ⟨o, p⟩ := op
      unfold addAll at h
      cases hA : AddOutcome d o p with
      | error e => rw [hA] at h; exact Except.noConfusion h
      | ok d1 =>
          rw [hA] at h
          obtain ⟨s, hS, hlt⟩ := hinv
          obtain ⟨s0, hS0, hne, hbound, _, _, _⟩ := AddOutcome_ok d o p d1 hA
          have hs0 : s = s0 := by
            have := hS.symm.trans hS0
            injection this
          obtain ⟨s', hS', hle⟩ := support_addOutcome_le d o p d1 s hwf hA hS
          have hwf1 := WF_addOutcome d o p d1 hwf hA
          have hlt' : s' < 1 + epsilon := lt_of_le_of_lt hle (by rw [hs0]; exact hbound)
          exact ih d1 d' hwf1 ⟨s', hS', hlt'⟩ h

/-- C1: total-mass invariant: for every discrete distribution built by
`NewDiscreteDistribution` followed by any sequence of successful `AddOutcome`
calls, the sum of the assigned probabilities (`Support`) never exceeds
`Certain + epsilon`; since every prefix of the sequence is itself such a
sequence, the bound holds after each successful `AddOutcome`. -/
theorem C1_total_mass (dom : List Outcome) (steps : List (Outcome × ℚ)) (d : distribution)
    (h : addAll (NewDiscreteDistribution dom) steps = .ok d) :
    ∃ s, Support d = .ok s ∧ s ≤ Certain + epsilon := by
  obtain ⟨-, s, hS, hlt⟩ := addAll_invariant steps (NewDiscreteDistribution dom) d (WF_new dom)
    ⟨0, by norm_num [Support, sumProbs, NewDiscreteDistribution], by norm_num [epsilon]⟩ h
  exact ⟨s, hS, le_of_lt hlt⟩

theorem C1_total_mass_witness :
    ∃ s, Support { domain := [0, 1], outcomes := [0, 1], support := [(0, 1/2), (1, 1/2)] }
        = .ok s
      ∧ s ≤ Certain + epsilon :=
  C1_total_mass [0, 1] [(0, 1/2), (1, 1/2)]
    { domain := [0, 1], outcomes := [0, 1], support := [(0, 1/2), (1, 1/2)] }
    (by norm_num [addAll, AddOutcome, Support, sumProbs, ProbabilityOf, mapLookup,
      NewDiscreteDistribution, equiv, epsilon, abs_lt, Probability.Valid, setAdd, mapInsert])

end Prob

namespace Prob

/-! ### Claim C6 -/

theorem sum_const_mul (l : List Outcome) (f : Outcome → ℚ) (c : ℚ)
    (h : ∀ x ∈ l, f x = c) : (l.map f).sum = l.length * c := by
  induction l with
  | nil => simp
  | cons a rest ih =>
      have hr := ih (fun x hx => h x (List.mem_cons_of_mem _ hx))
      simp [h a (List.mem_cons_self a rest), hr]
      ring

theorem support_uniform_state (S pre : List Outcome) (c : ℚ) :
    Support { domain := S, outcomes := pre, support := pre.map (fun x => (x, c)) }
      = .ok (pre.length * c) := by
  unfold Support
  rw [sumProbs_eq _ _ _ ?_]
  · rw [zero_add]
    congr 1
    exact sum_const_mul pre _ c (fun x hx => by
      simp [lookupD, mapLookup_map_pair_of_mem pre (fun _ => c) x hx])
  · intro o ho
    exact Or.inl (by simp [mapLookup_map_pair_of_mem pre (fun _ => c) o ho])

theorem uniform_checks (n k : ℕ) (hk : k < n) (h2 : n ≤ 100000) :
    ¬ equiv ((k : ℚ) * (1 / (n : ℚ))) 1
  ∧ (k : ℚ) * (1 / (n : ℚ)) + 1 / (n : ℚ) < 1 + epsilon
  ∧ Probability.Valid (1 / (n : ℚ))
  ∧ ¬ equiv (1 / (n : ℚ)) 0 := by
  have hn : (0:ℚ) < n := by
    have : 0 < n := lt_of_le_of_lt (Nat.zero_le k) hk
    exact_mod_cast this
  have hnu : (n : ℚ) * (1 / n) = 1 := mul_one_div_cancel hn.ne'
  have hu : (0:ℚ) < 1 / n := by positivity
  have hinv : (1:ℚ)/100000 ≤ 1 / n := by
    apply one_div_le_one_div_of_le hn
    exact_mod_cast h2
  have hkn : (k:ℚ) ≤ (n:ℚ) - 1 := by
    have : (k:ℚ) + 1 ≤ n := by exact_mod_cast hk
    linarith
  refine ⟨?_, ?_, ⟨le_of_lt hu, ?_⟩, ?_⟩
  · unfold equiv epsilon
    rw [abs_lt]
    rintro ⟨hlo, -⟩
    nlinarith
  · unfold epsilon
    nlinarith
  · nlinarith
  · unfold equiv epsilon
    rw [abs_lt]
    rintro ⟨-, hhi⟩
    nlinarith

theorem addUniform_go (c : ℚ) (S : List Outcome) (hnd : S.Nodup)
    (hc : c = 1 / (S.length : ℚ)) (h2 : S.length ≤ 100000) :
    ∀ l pre, S = pre ++ l →
      addUniform c l { domain := S, outcomes := pre, support := pre.map (fun x => (x, c)) }
        = .ok { domain := S, outcomes := S, support := S.map (fun x => (x, c)) } := by
  intro l
  induction l with
  | nil =>
      intro pre hpre
      rw [List.append_nil] at hpre
      subst hpre
      rfl
  | cons o rest ih =>
      intro pre hpre
      have hnd' : (pre ++ o :: rest).Nodup := hpre ▸ hnd
      have hopre : o ∉ pre := by
        intro hmem
        have := (List.nodup_append.mp hnd').2.2
        exact this hmem (List.mem_cons_self o rest)
      have hk : pre.length < S.length := by
        subst hpre
        simp
      obtain ⟨c1, c2, c3, c4⟩ := uniform_checks S.length pre.length hk h2
      rw [← hc] at c1 c2 c3 c4
      have hsup := support_uniform_state S pre c
      have hA := AddOutcome_eq_ok
        { domain := S, outcomes := pre, support := pre.map (fun x => (x, c)) }
        o c (pre.length * c) hsup c1 c2 c3 c4
      have hout : setAdd pre o = pre ++ [o] := setAdd_of_not_mem pre o hopre
      have hmap : mapInsert (pre.map (fun x => (x, c))) o c
          = (pre ++ [o]).map (fun x => (x, c)) := by
        rw [mapInsert_of_lookup_none _ _ _ (mapLookup_map_pair_of_not_mem pre _ o hopre)]
        simp
      unfold addUniform
      rw [hA]
      dsimp only
      rw [hout, hmap]
      exact ih (pre ++ [o]) (by rw [hpre]; simp)

/-- C6 counterexample helper: on any domain with more than `100000` elements,
the very first `AddOutcome` of the uniform construction fails because
`1/|S|` is zero within tolerance. -/
theorem newUniform_large_fails (S : List Outcome) (hlen : 100000 < S.length) :
    NewUniformDiscrete S = .error .probabilityZero := by
  cases S with
  | nil => simp at hlen
  | cons o rest =>
      have hsup : Support (NewDiscreteDistribution (o :: rest)) = .ok 0 := by
        norm_num [Support, sumProbs, NewDiscreteDistribution]
      unfold NewUniformDiscrete addUniform
      set c := Certain / (setCardinality (o :: rest) : ℚ) with hcdef
      have hn : (100001 : ℚ) ≤ ((o :: rest).length : ℚ) := by
        have h : 100001 ≤ (o :: rest).length := hlen
        exact_mod_cast h
      have hn0 : (0:ℚ) < ((o :: rest).length : ℚ) := by linarith
      have hcval : c = 1 / ((o :: rest).length : ℚ) := by
        simp [hcdef, Certain, setCardinality]
      have hcle : c ≤ 1 / 100001 := by
        rw [hcval]
        exact one_div_le_one_div_of_le (by norm_num) hn
      have hcpos : (0:ℚ) < c := by rw [hcval]; positivity
      have h1 : ¬ equiv (0:ℚ) 1 := by norm_num [equiv, epsilon, abs_lt]
      have h2 : (0:ℚ) + c < 1 + epsilon := by
        unfold epsilon
        linarith
      have h3 : Probability.Valid c := ⟨le_of_lt hcpos, by linarith⟩
      have h4 : equiv c 0 := by
        unfold equiv epsilon
        rw [abs_lt]
        constructor <;> linarith
      rw [AddOutcome_err_zero _ o c 0 hsup h1 h2 h3 h4]

/-- C6 counterexample: the claim's failure mode for the empty domain does not
occur (the construction returns the empty distribution, the float division by
zero being unused), while on a domain of `100001` elements the construction
fails outright. -/
theorem C6_uniform_cex :
    NewUniformDiscrete ([] : List Outcome) = .ok (NewDiscreteDistribution [])
  ∧ NewUniformDiscrete (List.range 100001) = .error .probabilityZero := by
  constructor
  · rfl
  · exact newUniform_large_fails (List.range 100001) (by simp)

/-- C6 (amended): the uniform construction on the empty domain does not fail:
it returns the empty distribution over the empty domain.  For every
duplicate-free non-empty domain `S` with at most `100000` elements,
`NewUniformDiscrete(S)` succeeds, the result is fully supported, and every
element of `S` has probability exactly `1/|S|`; for larger domains the
construction fails because `1/|S|` is zero within tolerance. -/
theorem C6_uniform (S : List Outcome) :
    (S = [] → NewUniformDiscrete S = .ok (NewDiscreteDistribution S))
  ∧ (S.Nodup → 1 ≤ S.length → S.length ≤ 100000 →
      ∃ n, NewUniformDiscrete S = .ok n
        ∧ FullySupported n = .ok true
        ∧ ∀ o ∈ S, ProbabilityOf n o = .ok (1 / (S.length : ℚ)))
  ∧ (100000 < S.length → NewUniformDiscrete S = .error .probabilityZero) := by
  refine ⟨?_, ?_, newUniform_large_fails S⟩
  · rintro rfl
    rfl
  · intro hnd h1 h2
    have hn0 : (0:ℚ) < (S.length : ℚ) := by exact_mod_cast h1
    have hc : Certain / (setCardinality S : ℚ) = 1 / (S.length : ℚ) := by
      simp [Certain, setCardinality]
    have hgo := addUniform_go (Certain / (setCardinality S : ℚ)) S hnd
      (by rw [hc]) h2 S [] (by simp)
    refine ⟨_, hgo, ?_, ?_⟩
    · have hsup := support_uniform_state S S (Certain / (setCardinality S : ℚ))
      unfold FullySupported
      rw [hsup]
      dsimp only
      have hone : (S.length : ℚ) * (Certain / (setCardinality S : ℚ)) = 1 := by
        rw [hc, mul_one_div_cancel hn0.ne']
      rw [hone]
      norm_num [equiv, epsilon, Certain, abs_lt]
    · intro o ho
      unfold ProbabilityOf
      rw [mapLookup_map_pair_of_mem S _ o ho]
      rw [hc]

theorem C6_uniform_witness :
    ∃ n, NewUniformDiscrete [3, 4, 5] = .ok n
      ∧ FullySupported n = .ok true
      ∧ ∀ o ∈ [3, 4, 5], ProbabilityOf n o = .ok (1 / (([3, 4, 5] : List Outcome).length : ℚ)) :=
  (C6_uniform [3, 4, 5]).2.1 (by norm_num) (by norm_num) (by norm_num)

end Prob

namespace Prob

/-! ### Claims C4 and C5: composition -/

/-- The combined probability `cp` computed in `Compose`'s loop, as a total
function of the outcome. -/
def mixProb (p q : distribution) (alpha : ℚ) (o : Outcome) : ℚ :=
  alpha * lookupD p.support o + (1 - alpha) * lookupD q.support o

/-- Whether `Compose`'s loop keeps outcome `o` (its combined probability is
not exactly `Impossible`). -/
def mixKeep (p q : distribution) (alpha : ℚ) (o : Outcome) : Bool :=
  decide (mixProb p q alpha o ≠ 0)

theorem FullySupported_ok (d : distribution) (b : Bool) (h : FullySupported d = .ok b) :
    ∃ s, Support d = .ok s ∧ (b = true ↔ equiv s Certain) := by
  unfold FullySupported at h
  cases hS : Support d with
  | error e => rw [hS] at h; exact Except.noConfusion h
  | ok s =>
      rw [hS] at h
      dsimp only at h
      injection h with h
      exact ⟨s, rfl, by rw [← h]; simp⟩

theorem FullySupported_eq (d : distribution) (s : ℚ) (hS : Support d = .ok s) :
    FullySupported d = .ok (decide (equiv s Certain)) := by
  unfold FullySupported
  rw [hS]

theorem Compose_ok (p q : distribution) (alpha : ℚ) (n : distribution)
    (h : Compose p q alpha = .ok n) :
    ∃ sp sq, Support p = .ok sp ∧ equiv sp Certain ∧ Support q = .ok sq ∧ equiv sq Certain
      ∧ setEquivalent p.domain q.domain
      ∧ composeLoop p q alpha p.domain (NewDiscreteDistribution p.domain) = .ok n := by
  unfold Compose at h
  cases hfp : FullySupported p with
  | error e => rw [hfp] at h; exact Except.noConfusion h
  | ok fp =>
      rw [hfp] at h
      dsimp only at h
      by_cases hb : fp = true
      · rw [if_neg (not_not_intro hb)] at h
        cases hfq : FullySupported q with
        | error e => rw [hfq] at h; exact Except.noConfusion h
        | ok fq =>
            rw [hfq] at h
            dsimp only at h
            by_cases hb' : fq = true
            · rw [if_neg (not_not_intro hb')] at h
              by_cases heq : setEquivalent p.domain q.domain
              · rw [if_neg (not_not_intro heq)] at h
                obtain ⟨sp, hSp, hbp⟩ := FullySupported_ok p fp hfp
                obtain ⟨sq, hSq, hbq⟩ := FullySupported_ok q fq hfq
                exact ⟨sp, sq, hSp, hbp.mp hb, hSq, hbq.mp hb', heq, h⟩
              · rw [if_pos heq] at h
                exact Except.noConfusion h
            · rw [if_pos hb'] at h
              exact Except.noConfusion h
      · rw [if_pos hb] at h
        exact Except.noConfusion h

theorem composeLoop_go (p q : distribution) (alpha : ℚ)
    (hq : ∀ o ∈ p.domain, (mapLookup q.support o).isSome ∨ o ∈ q.domain)
    (hnd : p.domain.Nodup) :
    ∀ l pre, p.domain = pre ++ l →
    ∀ n, composeLoop p q alpha l
        { domain := p.domain,
          outcomes := pre.filter (mixKeep p q alpha),
          support := (pre.filter (mixKeep p q alpha)).map
            (fun x => (x, mixProb p q alpha x)) }
        = .ok n →
      n = { domain := p.domain,
            outcomes := p.domain.filter (mixKeep p q alpha),
            support := (p.domain.filter (mixKeep p q alpha)).map
              (fun x => (x, mixProb p q alpha x)) } := by
  intro l
  induction l with
  | nil =>
      intro pre hpre n h
      rw [List.append_nil] at hpre
      unfold composeLoop at h
      injection h with h
      rw [← h, hpre]
  | cons o rest ih =>
      intro pre hpre n h
      have hodom : o ∈ p.domain := by
        rw [hpre]
        exact List.mem_append_right pre (List.mem_cons_self o rest)
      have hnd' : (pre ++ o :: rest).Nodup := hpre ▸ hnd
      have hopre : o ∉ pre := by
        intro hmem
        exact (List.nodup_append.mp hnd').2.2 hmem (List.mem_cons_self o rest)
      have hp_ok : ProbabilityOf p o = .ok (lookupD p.support o) :=
        ProbabilityOf_eq_lookupD p o (Or.inr hodom)
      have hq_ok : ProbabilityOf q o = .ok (lookupD q.support o) :=
        ProbabilityOf_eq_lookupD q o (hq o hodom)
      unfold composeLoop at h
      rw [hp_ok, hq_ok] at h
      dsimp only at h
      by_cases hcp : mixProb p q alpha o = 0
      · rw [if_pos (show alpha * lookupD p.support o + (1 - alpha) * lookupD q.support o
            = Impossible from hcp)] at h
        have hfilter : (pre ++ [o]).filter (mixKeep p q alpha)
            = pre.filter (mixKeep p q alpha) := by
          simp [List.filter_append, List.filter_cons, mixKeep, hcp]
        refine ih (pre ++ [o]) (by rw [hpre]; simp) n ?_
        rw [hfilter]
        exact h
      · rw [if_neg (show ¬ (alpha * lookupD p.support o + (1 - alpha) * lookupD q.support o
            = Impossible) from hcp)] at h
        cases hA : AddOutcome
            { domain := p.domain,
              outcomes := pre.filter (mixKeep p q alpha),
              support := (pre.filter (mixKeep p q alpha)).map
                (fun x => (x, mixProb p q alpha x)) }
            o (alpha * lookupD p.support o + (1 - alpha) * lookupD q.support o) with
        | error e => rw [hA] at h; exact Except.noConfusion h
        | ok n1 =>
            rw [hA] at h
            obtain ⟨s0, _, _, _, _, _, hn1⟩ := AddOutcome_ok _ _ _ _ hA
            have hofilter : o ∉ pre.filter (mixKeep p q alpha) :=
              fun hmem => hopre (List.mem_of_mem_filter hmem)
            have hout : setAdd (pre.filter (mixKeep p q alpha)) o
                = pre.filter (mixKeep p q alpha) ++ [o] :=
              setAdd_of_not_mem _ _ hofilter
            have hkeep : mixKeep p q alpha o = true := by
              simp [mixKeep, hcp]
            have hfilter : (pre ++ [o]).filter (mixKeep p q alpha)
                = pre.filter (mixKeep p q alpha) ++ [o] := by
              simp [List.filter_append, List.filter_cons, hkeep]
            have hmap : mapInsert
                ((pre.filter (mixKeep p q alpha)).map (fun x => (x, mixProb p q alpha x)))
                o (alpha * lookupD p.support o + (1 - alpha) * lookupD q.support o)
                = ((pre ++ [o]).filter (mixKeep p q alpha)).map
                    (fun x => (x, mixProb p q alpha x)) := by
              rw [mapInsert_of_lookup_none _ _ _
                (mapLookup_map_pair_of_not_mem _ _ o hofilter), hfilter]
              simp [mixProb]
            refine ih (pre ++ [o]) (by rw [hpre]; simp) n ?_
            rw [← hfilter] at hout
            rw [hn1, hout, hmap] at h
            exact h

end Prob

namespace Prob

/-- C4: `Compose(p, q, alpha)` fails with *NotFullySupported* when `p` (or,
`p` being fully supported, `q`) is not fully supported; fails with
*DomainMismatch* when both are fully supported but the domains are not
set-equivalent; and on success returns a distribution over the shared domain
in which every outcome `o` has probability
`alpha * p.ProbabilityOf(o) + (1 - alpha) * q.ProbabilityOf(o)`, outcomes
whose combined probability is exactly `Impossible` being absent from the
result's support. -/
theorem C4_compose (p q : distribution) (alpha : ℚ) :
    (∀ s, Support p = .ok s → ¬ equiv s Certain →
      Compose p q alpha = .error .notFullySupported)
  ∧ (∀ sp sq, Support p = .ok sp → equiv sp Certain →
      Support q = .ok sq → ¬ equiv sq Certain →
      Compose p q alpha = .error .notFullySupported)
  ∧ (∀ sp sq, Support p = .ok sp → equiv sp Certain →
      Support q = .ok sq → equiv sq Certain →
      ¬ setEquivalent p.domain q.domain →
      Compose p q alpha = .error .domainMismatch)
  ∧ (∀ n, p.domain.Nodup → Compose p q alpha = .ok n →
      n.domain = p.domain ∧
      ∀ o ∈ p.domain, ∃ pp qq,
        ProbabilityOf p o = .ok pp ∧ ProbabilityOf q o = .ok qq ∧
        ProbabilityOf n o = .ok (alpha * pp + (1 - alpha) * qq) ∧
        (o ∈ n.outcomes ↔ alpha * pp + (1 - alpha) * qq ≠ Impossible)) := by
  refine ⟨?_, ?_, ?_, ?_⟩
  · intro s hS hne
    unfold Compose
    rw [FullySupported_eq p s hS]
    dsimp only
    rw [if_pos (by simp [hne])]
  · intro sp sq hSp hep hSq hne
    unfold Compose
    rw [FullySupported_eq p sp hSp]
    dsimp only
    rw [if_neg (by simp [hep]), FullySupported_eq q sq hSq]
    dsimp only
    rw [if_pos (by simp [hne])]
  · intro sp sq hSp hep hSq heq hne
    unfold Compose
    rw [FullySupported_eq p sp hSp]
    dsimp only
    rw [if_neg (by simp [hep]), FullySupported_eq q sq hSq]
    dsimp only
    rw [if_neg (by simp [heq]), if_pos hne]
  · intro n hnd h
    obtain ⟨sp, sq, hSp, hep, hSq, heq, hdom, hloop⟩ := Compose_ok p q alpha n h
    have hq_mem : ∀ o ∈ p.domain, (mapLookup q.support o).isSome ∨ o ∈ q.domain :=
      fun o ho => Or.inr (hdom.1 o ho)
    have hn := composeLoop_go p q alpha hq_mem hnd p.domain [] (by simp) n
      (by simpa [NewDiscreteDistribution] using hloop)
    subst hn
    refine ⟨rfl, ?_⟩
    intro o ho
    refine ⟨lookupD p.support o, lookupD q.support o,
      ProbabilityOf_eq_lookupD p o (Or.inr ho),
      ProbabilityOf_eq_lookupD q o (hq_mem o ho), ?_, ?_⟩
    · by_cases hcp : mixProb p q alpha o = 0
      · have hnk : o ∉ p.domain.filter (mixKeep p q alpha) := by
          simp [List.mem_filter, mixKeep, hcp]
        unfold ProbabilityOf
        dsimp only
        rw [mapLookup_map_pair_of_not_mem _ _ o hnk]
        rw [if_pos ho]
        rw [show alpha * lookupD p.support o + (1 - alpha) * lookupD q.support o
          = (0:ℚ) from hcp]
        rfl
      · have hk : o ∈ p.domain.filter (mixKeep p q alpha) := by
          simp [List.mem_filter, mixKeep, hcp, ho]
        unfold ProbabilityOf
        dsimp only
        rw [mapLookup_map_pair_of_mem _ _ o hk]
        rfl
    · show o ∈ p.domain.filter (mixKeep p q alpha) ↔ _
      simp [List.mem_filter, mixKeep, ho, mixProb, Impossible]

/-- The concrete result of `Compose dUnifTwo dUnifTwo (1/2)`. -/
def composeHalfResult : distribution :=
  { domain := [0, 1], outcomes := [0, 1], support := [(0, 1/2), (1, 1/2)] }

theorem C4_compose_witness :
    composeHalfResult.domain = dUnifTwo.domain
  ∧ ∀ o ∈ dUnifTwo.domain, ∃ pp qq,
      ProbabilityOf dUnifTwo o = .ok pp ∧ ProbabilityOf dUnifTwo o = .ok qq ∧
      ProbabilityOf composeHalfResult o = .ok ((1:ℚ)/2 * pp + (1 - 1/2) * qq) ∧
      (o ∈ composeHalfResult.outcomes
        ↔ (1:ℚ)/2 * pp + (1 - 1/2) * qq ≠ Impossible) :=
  (C4_compose dUnifTwo dUnifTwo (1/2)).2.2.2 composeHalfResult
    (by norm_num [dUnifTwo])
    (by norm_num [dUnifTwo, composeHalfResult, Compose, FullySupported, Support, sumProbs,
      ProbabilityOf, mapLookup, equiv, epsilon, abs_lt, Certain, setEquivalent, composeLoop,
      AddOutcome, NewDiscreteDistribution, Impossible, Probability.Valid, setAdd, mapInsert])

end Prob

namespace Prob

/-- A fully supported point-mass distribution over the two-point domain. -/
def qPoint : distribution := { domain := [0, 1], outcomes := [0], support := [(0, 1)] }

/-- C5 counterexample: `dUnifTwo` and `qPoint` are fully supported over the
same domain and `alpha = 1/100000` lies in `[0,1]`, yet `Compose` fails: after
adding the first combined mass `1 - alpha/2`, the running support is within
tolerance of `Certain`, so the second `AddOutcome` panics. -/
theorem C5_mixture_cex :
    FullySupported dUnifTwo = .ok true
  ∧ FullySupported qPoint = .ok true
  ∧ setEquivalent dUnifTwo.domain qPoint.domain
  ∧ ((0:ℚ) ≤ 1/100000 ∧ (1:ℚ)/100000 ≤ 1)
  ∧ Compose dUnifTwo qPoint (1/100000) = .error .alreadyFullySupported := by
  refine ⟨?_, ?_, ?_, by norm_num, ?_⟩ <;>
    norm_num [dUnifTwo, qPoint, FullySupported, Support, sumProbs, ProbabilityOf, mapLookup,
      equiv, epsilon, abs_lt, Certain, setEquivalent, Compose, composeLoop, AddOutcome,
      NewDiscreteDistribution, Impossible, Probability.Valid, setAdd, mapInsert]

theorem sum_map_filter_ne (l : List Outcome) (f : Outcome → ℚ) :
    ((l.filter (fun x => decide (f x ≠ 0))).map f).sum = (l.map f).sum := by
  induction l with
  | nil => rfl
  | cons a rest ih =>
      rw [List.filter_cons]
      by_cases ha : f a = 0
      · rw [if_neg (by simp [ha]), ih]
        simp [ha]
      · rw [if_pos (by simp [ha]), List.map_cons, List.sum_cons, ih, List.map_cons,
          List.sum_cons]

theorem sum_map_mix (l : List Outcome) (f g : Outcome → ℚ) (a b : ℚ) :
    (l.map (fun o => a * f o + b * g o)).sum = a * (l.map f).sum + b * (l.map g).sum := by
  induction l with
  | nil => simp
  | cons x rest ih =>
      simp [ih]
      ring

theorem sum_map_subset (K D : List Outcome) (f : Outcome → ℚ)
    (hK : K.Nodup) (hD : D.Nodup) (hsub : ∀ x ∈ K, x ∈ D)
    (hzero : ∀ x ∈ D, x ∉ K → f x = 0) :
    (K.map f).sum = (D.map f).sum := by
  rw [← List.sum_toFinset f hK, ← List.sum_toFinset f hD]
  apply Finset.sum_subset
  · intro x hx
    rw [List.mem_toFinset] at hx ⊢
    exact hsub x hx
  · intro x hx hnx
    rw [List.mem_toFinset] at hx
    rw [List.mem_toFinset] at hnx
    exact hzero x hx hnx

theorem support_sum_over (d : distribution) (D : List Outcome) (s : ℚ)
    (hwf : WF d) (hD : D.Nodup) (hsub : ∀ x ∈ d.outcomes, x ∈ D)
    (hS : Support d = .ok s) :
    (D.map (lookupD d.support)).sum = s := by
  have hsum := Support_of_WF d hwf
  have hs_eq : s = (d.outcomes.map (lookupD d.support)).sum := by
    have := hS.symm.trans hsum
    injection this
  rw [hs_eq]
  refine (sum_map_subset d.outcomes D _ hwf.1 hD hsub ?_).symm
  intro x hx hnx
  unfold lookupD
  cases hl : mapLookup d.support x with
  | none => rfl
  | some v =>
      exact absurd ((hwf.2.2 (x, v) (mem_of_mapLookup_some d.support x v hl)).1) hnx

/-- C5 (amended): for every pair of fully-supported well-formed distributions
`p` and `q` whose supports lie inside their (duplicate-free, equivalent)
domains and every `alpha` in `[0,1]`, *if* `Compose(p, q, alpha)` succeeds,
then its total support mass is `1` within tolerance.  (`Compose` need not
succeed: see the counterexample, where an intermediate `AddOutcome` fails.) -/
theorem C5_mixture (p q : distribution) (alpha : ℚ) (n : distribution)
    (hwfp : WF p) (hwfq : WF q)
    (hpd : ∀ o ∈ p.outcomes, o ∈ p.domain) (hqd : ∀ o ∈ q.outcomes, o ∈ q.domain)
    (hnd : p.domain.Nodup)
    (ha0 : 0 ≤ alpha) (ha1 : alpha ≤ 1)
    (h : Compose p q alpha = .ok n) :
    ∃ s, Support n = .ok s ∧ equiv s Certain := by
  obtain ⟨sp, sq, hSp, hep, hSq, heq, hdom, hloop⟩ := Compose_ok p q alpha n h
  have hq_mem : ∀ o ∈ p.domain, (mapLookup q.support o).isSome ∨ o ∈ q.domain :=
    fun o ho => Or.inr (hdom.1 o ho)
  have hn := composeLoop_go p q alpha hq_mem hnd p.domain [] (by simp) n
    (by simpa [NewDiscreteDistribution] using hloop)
  subst hn
  have hsupn : Support
      { domain := p.domain,
        outcomes := p.domain.filter (mixKeep p q alpha),
        support := (p.domain.filter (mixKeep p q alpha)).map
          (fun x => (x, mixProb p q alpha x)) }
      = .ok (alpha * sp + (1 - alpha) * sq) := by
    unfold Support
    rw [sumProbs_eq _ _ _ ?_]
    · rw [zero_add]
      congr 1
      have hcongr : ∀ x ∈ p.domain.filter (mixKeep p q alpha),
          lookupD ((p.domain.filter (mixKeep p q alpha)).map
            (fun y => (y, mixProb p q alpha y))) x = mixProb p q alpha x := by
        intro x hx
        simp [lookupD, mapLookup_map_pair_of_mem _ _ x hx]
      rw [List.map_congr_left hcongr]
      have : (p.domain.filter (mixKeep p q alpha)).map (mixProb p q alpha)
          = (p.domain.filter
              (fun x => decide (mixProb p q alpha x ≠ 0))).map (mixProb p q alpha) := rfl
      rw [this, sum_map_filter_ne]
      unfold mixProb
      rw [sum_map_mix]
      rw [support_sum_over p p.domain sp hwfp hnd hpd hSp,
        support_sum_over q p.domain sq hwfq hnd (fun x hx => hdom.2 x (hqd x hx)) hSq]
    · intro o ho
      exact Or.inl (by simp [mapLookup_map_pair_of_mem _ _ o ho])
  refine ⟨alpha * sp + (1 - alpha) * sq, hsupn, ?_⟩
  unfold equiv epsilon Certain at hep heq ⊢
  rw [abs_lt] at hep heq ⊢
  obtain ⟨hp1, hp2⟩ := hep
  obtain ⟨hq1, hq2⟩ := heq
  have e1 : (0:ℚ) ≤ 1 - alpha := by linarith
  constructor
  · by_cases hz : alpha = 0
    · rw [hz]
      ring_nf
      linarith
    · have hpos : 0 < alpha := lt_of_le_of_ne ha0 (Ne.symm hz)
      have t1 : 0 < alpha * (sp - 1 + 1/100000) := mul_pos hpos (by linarith)
      have t2 : 0 ≤ (1 - alpha) * (sq - 1 + 1/100000) := mul_nonneg e1 (by linarith)
      nlinarith [t1, t2]
  · by_cases hz : alpha = 0
    · rw [hz]
      ring_nf
      linarith
    · have hpos : 0 < alpha := lt_of_le_of_ne ha0 (Ne.symm hz)
      have t1 : 0 < alpha * (1 + 1/100000 - sp) := mul_pos hpos (by linarith)
      have t2 : 0 ≤ (1 - alpha) * (1 + 1/100000 - sq) := mul_nonneg e1 (by linarith)
      nlinarith [t1, t2]

theorem C5_mixture_witness :
    ∃ s, Support composeHalfResult = .ok s ∧ equiv s Certain :=
  C5_mixture dUnifTwo dUnifTwo (1/2) composeHalfResult
    (by norm_num [WF, dUnifTwo, mapLookup])
    (by norm_num [WF, dUnifTwo, mapLookup])
    (by norm_num [dUnifTwo]) (by norm_num [dUnifTwo]) (by norm_num [dUnifTwo])
    (by norm_num) (by norm_num)
    (by norm_num [dUnifTwo, composeHalfResult, Compose, FullySupported, Support, sumProbs,
      ProbabilityOf, mapLookup, equiv, epsilon, abs_lt, Certain, setEquivalent, composeLoop,
      AddOutcome, NewDiscreteDistribution, Impossible, Probability.Valid, setAdd, mapInsert])

end Prob

namespace Prob

/-! ### Claim C7 -/

theorem simLoop_mem (d : distribution) (f : ℚ) :
    ∀ (l : List Outcome) (acc : ℚ) (last : Option Outcome),
      (∀ o ∈ l, ∃ v, ProbabilityOf d o = .ok v) → l ≠ [] →
      ∃ o ∈ l, simLoop d f l acc last = .ok (some o) := by
  intro l
  induction l with
  | nil =>
      intro _ _ _ hne
      exact absurd rfl hne
  | cons o rest ih =>
      intro acc last hok _
      obtain ⟨v, hv⟩ := hok o (List.mem_cons_self o rest)
      unfold simLoop
      rw [hv]
      dsimp only
      by_cases hf : f < acc + v
      · exact ⟨o, List.mem_cons_self o rest, by rw [if_pos hf]⟩
      · by_cases hrest : rest = []
        · refine ⟨o, List.mem_cons_self o rest, ?_⟩
          rw [if_neg hf, hrest]
          rfl
        · obtain ⟨o', ho', hsim⟩ := ih (acc + v) (some o)
            (fun x hx => hok x (List.mem_cons_of_mem _ hx)) hrest
          exact ⟨o', List.mem_cons_of_mem _ ho', by rw [if_neg hf]; exact hsim⟩

/-- C7: `Simulate(d)` fails with *NotFullySupported* when `d` is not fully
supported; otherwise, for any threshold `f` drawn from `[0, 1)`, the walk over
the outcome set accumulating probability mass terminates returning an outcome
of the set (the first one whose running mass strictly exceeds `f`, or, if the
loop exhausts, the last outcome visited) rather than failing. -/
theorem C7_simulate (d : distribution) (f s : ℚ) (hS : Support d = .ok s) :
    (¬ equiv s Certain → Simulate d f = .error .notFullySupported)
  ∧ (equiv s Certain → 0 ≤ f → f < 1 →
      ∃ o, Simulate d f = .ok (some o) ∧ o ∈ d.outcomes) := by
  constructor
  · intro hne
    unfold Simulate
    rw [FullySupported_eq d s hS]
    dsimp only
    rw [if_pos (by simp [hne])]
  · intro he hf0 hf1
    have hnonempty : d.outcomes ≠ [] := by
      intro h0
      have hzero : Support d = .ok 0 := by
        unfold Support
        rw [h0]
        rfl
      have hs0 : s = 0 := by
        have := hS.symm.trans hzero
        injection this
      rw [hs0] at he
      unfold equiv epsilon Certain at he
      rw [abs_lt] at he
      obtain ⟨he1, he2⟩ := he
      linarith
    obtain ⟨o, ho, hsim⟩ := simLoop_mem d f d.outcomes 0 none
      (sumProbs_ok_forall d d.outcomes 0 s hS) hnonempty
    refine ⟨o, ?_, ho⟩
    unfold Simulate
    rw [FullySupported_eq d s hS]
    dsimp only
    rw [if_neg (by simp [he])]
    exact hsim

theorem C7_simulate_witness :
    ∃ o, Simulate dUnifTwo (1/3) = .ok (some o) ∧ o ∈ dUnifTwo.outcomes :=
  (C7_simulate dUnifTwo (1/3) 1
      (by norm_num [dUnifTwo, Support, sumProbs, ProbabilityOf, mapLookup])).2
    (by norm_num [equiv, epsilon, abs_lt, Certain])
    (by norm_num) (by norm_num)

end Prob
